import Mathlib

/-!
Verification of the Aadhaar enrolment dashboards
(src/streamlit_app_demo/app_enrolment.py and src/streamlit_app_demo/app2.py).

The two files share their whole data pipeline: CSV loading and
concatenation, the region filter over (level, state, district), and the
groupby/sum/melt aggregations feeding each chart.  This development embeds
that pipeline shallowly: a dataframe is a list of rows, pandas groupby is
"sorted distinct keys, then per-key column sums", melt is the
variable-major concatenation pandas produces, and numeric columns are
exact integers (percentages are exact rationals).  Python while loops are
embedded with an explicit fuel argument that provably never runs out, so
every definition evaluates by kernel reduction.
-/

namespace Aadhar

/-! ## Indian number formatting (app_enrolment.py, format_indian) -/

/-- Python str.zfill w: pad on the left with zeros to width w.
The inputs formatted here are unsigned decimal strings. -/
def zfill (w : Nat) (s : String) : String :=
  ⟨List.replicate (w - s.length) '0' ++ s.data⟩

/-- Python s.lstrip(c) for a one-character strip set. -/
def lstrip (c : Char) (s : String) : String :=
  ⟨s.data.dropWhile (fun x => x == c)⟩

/-- Python s[-3:] for strings of length at least 3 (all call sites have
length at least 4, as the formatted number is at least 1000). -/
def takeLast (n : Nat) (s : String) : String :=
  ⟨s.data.drop (s.data.length - n)⟩

/-- The while loop of format_indian:
while num > 0: result = str(num % 100).zfill(2) + ',' + result; num //= 100.
The first argument is fuel; num strictly decreases each iteration, so fuel
num is always enough. -/
def fiLoop : Nat → Nat → String → String
  | 0, _, result => result
  | fuel + 1, num, result =>
    if num = 0 then result
    else fiLoop fuel (num / 100) (zfill 2 (toString (num % 100)) ++ "," ++ result)

/-- format_indian from app_enrolment.py: format a number in the Indian
numbering system (1,23,45,678).  For num ≥ 1000 the Python code takes
s = str(num), keeps s[-3:], and loops on int(s[:-3]); for the decimal
representation of num ≥ 1000, int(s[:-3]) is num / 1000. -/
def format_indian (num : Int) : String :=
  if num < 1000 then toString num
  else
    let s := toString num
    let result := takeLast 3 s
    lstrip ',' (lstrip '0' (fiLoop num.toNat (num.toNat / 1000) result))

/-- format_age_group from app_enrolment.py: column name to readable label,
identity fallback for unmapped names. -/
def format_age_group (col_name : String) : String :=
  if col_name = "age_0_5" then "Age 0-5"
  else if col_name = "age_5_17" then "Age 5-17"
  else if col_name = "age_18_greater" then "Age 18+"
  else if col_name = "bio_age_5_17" then "Age 5-17"
  else if col_name = "bio_age_17_" then "Age 17+"
  else if col_name = "demo_age_5_17" then "Age 5-17"
  else if col_name = "demo_age_17_" then "Age 17+"
  else col_name

/-- Modelled from the spec: the digit pairs of m (all digits before the
final group of three), comma separated, with the leading pair unpadded.
Fuel-structured like fiLoop; fuel m always suffices. -/
def groupPairsF : Nat → Nat → String
  | 0, m => toString m
  | fuel + 1, m =>
    if m < 100 then toString m
    else groupPairsF fuel (m / 100) ++ "," ++ zfill 2 (toString (m % 100))

/-- Modelled from the spec: digit pairs of m, comma separated. -/
def groupPairs (m : Nat) : String := groupPairsF m m

/-- Modelled from the spec (section 4.4): group the last three digits of n
together and all preceding digits in groups of two, comma separated; no
separators for values below 1000. -/
def indianGroupingSpec (n : Int) : String :=
  if n < 1000 then toString n
  else groupPairs (n.toNat / 1000) ++ ("," ++ takeLast 3 (toString n))

/-! ## Data model and the region filter -/

/-- One row of the loaded enrolment dataset: geography fields, the parsed
date (abstracted to a totally ordered day number), the derived month label,
and the three age-bucket counts.  The buckets use Int, the native integer
dtype of the CSV columns. -/
structure Row where
  state : String
  district : String
  pincode : String
  date : Nat
  month : String
  age_0_5 : Int
  age_5_17 : Int
  age_18_greater : Int
deriving DecidableEq, Repr

/-- The analysis level selected in the sidebar. -/
inductive Level
  | National
  | State
  | District
deriving DecidableEq, Repr

/-- The region filter of both dashboards (app_enrolment.py lines 113-125,
app2.py lines 91-103): National keeps the frame, State filters on the
state column, District filters on state and district. -/
def df_region (level : Level) (state district : String) (df : List Row) : List Row :=
  match level with
  | .National => df
  | .State => df.filter (fun r => r.state == state)
  | .District => df.filter (fun r => r.state == state && r.district == district)

/-! ## Sorting and groupby

pandas groupby(k)[cols].sum() aggregates over the sorted distinct values
of the key column; the comparator below is any total preorder test, and
only the membership and distinctness of the key list matter to the claims.
-/

/-- Insert a into an already built list, keeping the comparator order. -/
def insertLe {α : Type} (le : α → α → Bool) (a : α) : List α → List α
  | [] => [a]
  | b :: bs => if le a b then a :: b :: bs else b :: insertLe le a bs

/-- Insertion sort by a Bool comparator (kernel-reducible stand-in for the
library sort pandas uses; the claims depend only on it permuting its
input). -/
def sortLe {α : Type} (le : α → α → Bool) : List α → List α
  | [] => []
  | a :: as => insertLe le a (sortLe le as)

/-- The sorted distinct values of a key column, as groupby (and the
sidebar's sorted unique lists) produce them. -/
def sortedKeys {α : Type} [DecidableEq α] (le : α → α → Bool) (l : List α) : List α :=
  sortLe le l.dedup

/-- Lexicographic comparison of character lists by code point. -/
def charsLe : List Char → List Char → Bool
  | [], _ => true
  | _ :: _, [] => false
  | a :: as, b :: bs =>
    if a.toNat < b.toNat then true
    else if b.toNat < a.toNat then false
    else charsLe as bs

/-- Comparator for String keys: code-point lexicographic order, as Python
sorted() and pandas use on strings. -/
def strLe (a b : String) : Bool := charsLe a.data b.data

/-- Comparator for Nat (date) keys. -/
def natLe (a b : Nat) : Bool := a.ble b

/-- The three age-bucket column sums of one group, in column order
age_0_5, age_5_17, age_18_greater. -/
structure AgeSums where
  a05 : Int
  a517 : Int
  a18 : Int
deriving DecidableEq, Repr

/-- Sum of one column over a list of rows. -/
def sumCol (f : Row → Int) (rows : List Row) : Int := (rows.map f).sum

/-- df[[age cols]].sum(): each bucket column summed over the rows. -/
def ageSumsOf (rows : List Row) : AgeSums :=
  ⟨sumCol (fun r => r.age_0_5) rows,
   sumCol (fun r => r.age_5_17) rows,
   sumCol (fun r => r.age_18_greater) rows⟩

/-- df.groupby(key)[[age cols]].sum(): one entry per sorted distinct key,
holding the per-column sums of that key's rows. -/
def groupbyAgeSums {α : Type} [DecidableEq α] (le : α → α → Bool)
    (key : Row → α) (df : List Row) : List (α × AgeSums) :=
  (sortedKeys le (df.map key)).map
    (fun k => (k, ageSumsOf (df.filter (fun r => key r == k))))

/-- Row-wise total of the three buckets. -/
def rowTotal (r : Row) : Int := r.age_0_5 + r.age_5_17 + r.age_18_greater

/-- Total of the three bucket sums of one group (.sum(axis=1)). -/
def totalOf (s : AgeSums) : Int := s.a05 + s.a517 + s.a18

/-- Sum of every age-bucket value in the dataset (row-wise order). -/
def sumAll (df : List Row) : Int := (df.map rowTotal).sum

/-! ## The six aggregated views (identical in both dashboards unless
noted; app_enrolment.py line numbers given) -/

/-- View 1 (lines 142-147): monthly totals — group by month, sum the
bucket columns, sum across buckets. -/
def monthly_total (df : List Row) : List (String × Int) :=
  (groupbyAgeSums strLe (fun r => r.month) df).map (fun p => (p.1, totalOf p.2))

/-- pandas melt on a grouped age-sums frame: variable-major (month, age
column, value) triples — all age_0_5 rows, then age_5_17, then
age_18_greater. -/
def meltAge {α : Type} (rows : List (α × AgeSums)) : List (α × String × Int) :=
  rows.map (fun p => (p.1, "age_0_5", p.2.a05))
    ++ rows.map (fun p => (p.1, "age_5_17", p.2.a517))
    ++ rows.map (fun p => (p.1, "age_18_greater", p.2.a18))

/-- View 2 before labelling (lines 166-171): group by month, keep buckets
separate, melt. -/
def monthly_age_raw (df : List Row) : List (String × String × Int) :=
  meltAge (groupbyAgeSums strLe (fun r => r.month) df)

/-- View 2 (lines 166-172): app_enrolment.py additionally maps the age
column names through format_age_group. -/
def monthly_age (df : List Row) : List (String × String × Int) :=
  (monthly_age_raw df).map (fun t => (t.1, format_age_group t.2.1, t.2.2))

/-- View 3 (lines 216-222) and the district special case (lines 203-209):
group by the sub-territory column, sum buckets, sum across buckets, sort
descending by the total. -/
def sub_total (sub : Row → String) (df : List Row) : List (String × Int) :=
  sortLe (fun a b => decide (b.2 ≤ a.2))
    ((groupbyAgeSums strLe sub df).map (fun p => (p.1, totalOf p.2)))

/-- Running cumulative sum over (date, per-date total) pairs, carrying the
accumulator. -/
def cumsumAux (acc : Int) : List (Nat × Int) → List (Nat × Int)
  | [] => []
  | (d, v) :: rest => (d, acc + v) :: cumsumAux (acc + v) rest

/-- View 6 (lines 281-287): cumulative series — group by exact date, sum
buckets and across buckets per date, dates ascending, then cumsum. -/
def daily_total (df : List Row) : List (Nat × Int) :=
  cumsumAux 0
    ((groupbyAgeSums natLe (fun r => r.date) df).map (fun p => (p.1, totalOf p.2)))

/-- One month's three percentage shares (lines 302-307): each bucket's
monthly sum divided by the month's total across buckets, times 100.
pandas computes this in floats where a zero total yields NaN (0/0) or
inf (x/0), never an exception; both are modelled as none, a defined
percentage as some exact rational. -/
def pctTriple (s : AgeSums) : Option ℚ × Option ℚ × Option ℚ :=
  let t : Int := totalOf s
  if t = 0 then (none, none, none)
  else (some ((s.a05 : ℚ) / (t : ℚ) * 100),
        some ((s.a517 : ℚ) / (t : ℚ) * 100),
        some ((s.a18 : ℚ) / (t : ℚ) * 100))

/-- melt of the percentage frame, variable-major like meltAge. -/
def meltPct (rows : List (String × (Option ℚ × Option ℚ × Option ℚ))) :
    List (String × String × Option ℚ) :=
  rows.map (fun p => (p.1, "age_0_5", p.2.1))
    ++ rows.map (fun p => (p.1, "age_5_17", p.2.2.1))
    ++ rows.map (fun p => (p.1, "age_18_greater", p.2.2.2))

/-- View 7 before labelling (lines 302-312; this is app2.py's final
monthly_pct, lines 268-278): group by month, sum buckets, divide each by
the month total, times 100, melt. -/
def monthly_pct_raw (df : List Row) : List (String × String × Option ℚ) :=
  meltPct ((groupbyAgeSums strLe (fun r => r.month) df).map
    (fun p => (p.1, pctTriple p.2)))

/-- View 7 (lines 302-313): app_enrolment.py maps the age column names
through format_age_group. -/
def monthly_pct (df : List Row) : List (String × String × Option ℚ) :=
  (monthly_pct_raw df).map (fun t => (t.1, format_age_group t.2.1, t.2.2))

/-- The headline figure of app_enrolment.py (line 137):
int(df_region[[age cols]].sum().sum() / 2) — column sums, summed, then
divided by two with truncation toward zero (Python int() of the float
quotient; exact for the integer magnitudes at hand). -/
def total_enrol_sum (df : List Row) : Int :=
  Int.tdiv (sumCol (fun r => r.age_0_5) df
    + sumCol (fun r => r.age_5_17) df
    + sumCol (fun r => r.age_18_greater) df) 2

namespace App2

/-- app2.py lines 115-120: its monthly totals, identical code to
app_enrolment.py and with no divide-by-two anywhere. -/
def monthly_total (df : List Row) : List (String × Int) :=
  (groupbyAgeSums strLe (fun r => r.month) df).map (fun p => (p.1, totalOf p.2))

/-- app2.py lines 138-143: monthly by age group; app2 applies no label
mapping. -/
def monthly_age (df : List Row) : List (String × String × Int) :=
  meltAge (groupbyAgeSums strLe (fun r => r.month) df)

/-- app2.py lines 186-192: sub-territory totals, identical code. -/
def sub_total (sub : Row → String) (df : List Row) : List (String × Int) :=
  sortLe (fun a b => decide (b.2 ≤ a.2))
    ((groupbyAgeSums strLe sub df).map (fun p => (p.1, totalOf p.2)))

/-- app2.py lines 248-254: cumulative series, identical code. -/
def daily_total (df : List Row) : List (Nat × Int) :=
  cumsumAux 0
    ((groupbyAgeSums natLe (fun r => r.date) df).map (fun p => (p.1, totalOf p.2)))

/-- app2.py lines 268-278: percentage shares, identical code, no label
mapping. -/
def monthly_pct (df : List Row) : List (String × String × Option ℚ) :=
  meltPct ((groupbyAgeSums strLe (fun r => r.month) df).map
    (fun p => (p.1, pctTriple p.2)))

end App2

/-! ## The dataset loader (app_enrolment.py load_data, lines 70-82)

load_data globs the per-period CSV files, reads each (pd.read_csv), concats
them (pd.concat, ignore_index=True), parses the date column
(pd.to_datetime, errors raise by default) and derives the month label.
The embedding keeps the observable behaviour of those library calls:

- an unreadable or vanished file makes read_csv raise (input modelled as
  Option CsvFile, none = the read raises);
- pd.concat([]) raises (the glob matched nothing);
- pd.concat of frames with different columns does NOT raise: it aligns on
  the union of the columns, filling the cells a file lacks with NaN
  (modelled as none);
- pd.to_datetime raises as soon as one non-null value fails to parse (no
  row is dropped); a NaN cell becomes NaT (modelled as none);
- df["date"] on a frame with no date column raises KeyError.

The code defines no DataLoadError or SchemaError; LoadError below names
the library exceptions that actually escape. -/

/-- A CSV file as read_csv sees it: a header and its rows of cell texts. -/
structure CsvFile where
  header : List String
  rows : List (List String)
deriving DecidableEq, Repr

/-- A parsed calendar date (what pd.to_datetime yields per cell). -/
structure DateYMD where
  y : Nat
  m : Nat
  d : Nat
deriving DecidableEq, Repr

/-- The library exceptions load_data can propagate. -/
inductive LoadError
  | unreadableFile
  | emptyConcat
  | missingDateColumn
  | dateParseFailure
deriving DecidableEq, Repr

/-- pd.concat's output columns: the union of the input schemas, first
appearance order. -/
def unionSchema (schemas : List (List String)) : List String :=
  schemas.foldl (fun acc s => acc ++ s.filter (fun c => !acc.contains c)) []

/-- Align one row of one file to the concatenated schema: a cell for each
output column, none (NaN) where the file has no such column. -/
def alignRow (schema : List String) (header : List String) (row : List String) :
    List (Option String) :=
  schema.map (fun c =>
    match header.indexOf? c with
    | some i => row[i]?
    | none => none)

/-- pd.concat(df_list, ignore_index=True): union schema, all rows aligned
to it, file order then row order. -/
def concatFiles (files : List CsvFile) : List String × List (List (Option String)) :=
  let schema := unionSchema (files.map (fun f => f.header))
  (schema, files.flatMap (fun f => f.rows.map (alignRow schema f.header)))

/-- What load_data returns: the concatenated frame plus its parsed date
column and the derived month column (none = NaT). -/
structure LoadedFrame where
  schema : List String
  cells : List (List (Option String))
  dates : List (Option DateYMD)
  months : List (Option String)
deriving DecidableEq, Repr

/-- The month label df["date"].dt.to_period("M").astype(str) derives. -/
def monthLabel (d : DateYMD) : String :=
  zfill 4 (toString d.y) ++ "-" ++ zfill 2 (toString d.m)

/-- The list comprehension [pd.read_csv(f) for f in files], left to right;
the first file that cannot be read raises. -/
def readAll : List (Option CsvFile) → Except LoadError (List CsvFile)
  | [] => Except.ok []
  | none :: _ => Except.error LoadError.unreadableFile
  | some f :: rest => (readAll rest).map (fun fs => f :: fs)

/-- The text of a row's date cell, none when the cell is NaN (the row's
file has no date column) or the index is out of range. -/
def cellAt (di : Nat) (row : List (Option String)) : Option String :=
  match row[di]? with
  | some (some s) => some s
  | _ => none

/-- pd.to_datetime over the date column (index di of each aligned row):
the first non-null cell that fails to parse raises; a NaN cell becomes
NaT (none). -/
def parseDates (parse : String → Option DateYMD) (di : Nat) :
    List (List (Option String)) → Except LoadError (List (Option DateYMD))
  | [] => Except.ok []
  | row :: rest =>
    match cellAt di row with
    | some s =>
      match parse s with
      | some d => (parseDates parse di rest).map (fun ds => some d :: ds)
      | none => Except.error LoadError.dateParseFailure
    | none => (parseDates parse di rest).map (fun ds => none :: ds)

/-- load_data from app_enrolment.py.  parse stands for pd.to_datetime on
one cell text (the library's date grammar is opaque here; every theorem
holds for any parse function). -/
def load_data (parse : String → Option DateYMD) (files : List (Option CsvFile)) :
    Except LoadError LoadedFrame :=
  match readAll files with
  | Except.error e => Except.error e
  | Except.ok fs =>
    if fs.isEmpty then Except.error LoadError.emptyConcat
    else
      match (concatFiles fs).1.indexOf? "date" with
      | none => Except.error LoadError.missingDateColumn
      | some di =>
        match parseDates parse di (concatFiles fs).2 with
        | Except.error e => Except.error e
        | Except.ok dates =>
          Except.ok ⟨(concatFiles fs).1, (concatFiles fs).2, dates,
            dates.map (fun od => od.map monthLabel)⟩

/-- One row's date cell parses (vacuously true for a NaN cell). -/
def rowOk (parse : String → Option DateYMD) (di : Nat) (row : List (Option String)) : Bool :=
  match cellAt di row with
  | some s => (parse s).isSome
  | none => true

/-- Every non-null cell of the concatenated date column parses (and the
date column exists).  This is exactly the condition under which
pd.to_datetime succeeds on the concatenated frame. -/
def dateCellsOk (parse : String → Option DateYMD) (fs : List CsvFile) : Bool :=
  match (concatFiles fs).1.indexOf? "date" with
  | none => false
  | some di => (concatFiles fs).2.all (rowOk parse di)

/-! ## Spec-side companion of format_indian's while loop

padPairs is the loop's output shape before the final lstrip calls: every
pair zero-padded to width two (the loop zfills each group, including the
leading one). -/

def padPairsF : Nat → Nat → String
  | 0, m => zfill 2 (toString m)
  | fuel + 1, m =>
    if m < 100 then zfill 2 (toString m)
    else padPairsF fuel (m / 100) ++ "," ++ zfill 2 (toString (m % 100))

/-- The zero-padded digit pairs of m, comma separated. -/
def padPairs (m : Nat) : String := padPairsF m m

/-! ## Demo data used by the witnesses and counterexample -/

def row1 : Row := ⟨"Goa", "North Goa", "403001", 1, "2024-01", 10, 20, 30⟩

def row2 : Row := ⟨"Goa", "South Goa", "403701", 2, "2024-01", 1, 2, 3⟩

def row3 : Row := ⟨"Kerala", "Idukki", "685501", 3, "2024-02", 5, 5, 5⟩

def rowZ : Row := ⟨"Goa", "North Goa", "403001", 4, "2024-03", 0, 0, 0⟩

/-- A date parser standing in for pd.to_datetime in concrete runs. -/
def demoParse : String → Option DateYMD := fun s =>
  if s = "2024-01-01" then some ⟨2024, 1, 1⟩ else none

def fileA : CsvFile := ⟨["date", "state"], [["2024-01-01", "Goa"]]⟩

def fileB : CsvFile := ⟨["date", "pincode"], [["2024-01-01", "403001"]]⟩

/-! ## Lemmas about sorting, grouping and summation -/

theorem insertLe_perm {α : Type} (le : α → α → Bool) (a : α) :
    ∀ l : List α, (insertLe le a l).Perm (a :: l) := by
  intro l
  induction l with
  | nil => simp [insertLe]
  | cons b bs ih =>
    simp only [insertLe]
    by_cases h : le a b
    · simp [h]
    · simp only [h, if_neg, Bool.false_eq_true, not_false_eq_true]
      exact ((ih.cons b).trans (List.Perm.swap a b bs))

theorem sortLe_perm {α : Type} (le : α → α → Bool) :
    ∀ l : List α, (sortLe le l).Perm l := by
  intro l
  induction l with
  | nil => simp [sortLe]
  | cons a as ih =>
    exact (insertLe_perm le a (sortLe le as)).trans (ih.cons a)

theorem sortedKeys_nodup {α : Type} [DecidableEq α] (le : α → α → Bool)
    (l : List α) : (sortedKeys le l).Nodup :=
  ((sortLe_perm le l.dedup).symm.nodup (List.nodup_dedup l))

theorem mem_sortedKeys {α : Type} [DecidableEq α] {le : α → α → Bool}
    {l : List α} {a : α} : a ∈ sortedKeys le l ↔ a ∈ l := by
  unfold sortedKeys
  rw [(sortLe_perm le l.dedup).mem_iff, List.mem_dedup]

/-- Summing three mapped columns separately equals summing row-wise. -/
theorem sum_three_maps {α : Type} (l : List α) (f g h : α → Int) :
    (l.map f).sum + (l.map g).sum + (l.map h).sum
      = (l.map (fun x => f x + g x + h x)).sum := by
  induction l with
  | nil => simp
  | cons a t ih => simp only [List.map_cons, List.sum_cons]; linarith

/-- In a list of distinct keys containing a, picking out a's contribution. -/
theorem sum_map_ite_single {α : Type} [DecidableEq α] :
    ∀ (keys : List α), keys.Nodup → ∀ a ∈ keys, ∀ v : Int,
      (keys.map (fun k => if a = k then v else 0)).sum = v := by
  intro keys
  induction keys with
  | nil => intro _ a ha; exact absurd ha (List.not_mem_nil a)
  | cons k ks ih =>
    intro hnd a ha v
    rcases List.nodup_cons.mp hnd with ⟨hk, hnd'⟩
    simp only [List.map_cons, List.sum_cons]
    rcases List.mem_cons.mp ha with h | h
    · subst h
      have hz : (ks.map (fun x => if a = x then v else 0)).sum = 0 := by
        apply List.sum_eq_zero
        intro y hy
        rcases List.mem_map.mp hy with ⟨x, hx, he⟩
        have hax : a ≠ x := fun hax => hk (hax ▸ hx)
        rw [← he]
        simp [hax]
      simp [hz]
    · have hne : a ≠ k := fun he => hk (he ▸ h)
      simp only [hne, if_false]
      rw [ih hnd' a h v]
      ring

/-- Summing a function fiber by fiber over a complete distinct key list
equals summing it over the whole list. -/
theorem sum_fiber {α β : Type} [DecidableEq α] (key : β → α) (f : β → Int) :
    ∀ (l : List β) (keys : List α), keys.Nodup → (∀ x ∈ l, key x ∈ keys) →
      (keys.map (fun k => ((l.filter (fun x => key x == k)).map f).sum)).sum
        = (l.map f).sum := by
  intro l
  induction l with
  | nil => intro keys _ _; simp
  | cons x t ih =>
    intro keys hnd hc
    have hx : key x ∈ keys := hc x (List.mem_cons_self x t)
    have hct : ∀ y ∈ t, key y ∈ keys := fun y hy => hc y (List.mem_cons_of_mem x hy)
    have hsplit : ∀ k : α,
        ((List.filter (fun y => key y == k) (x :: t)).map f).sum
          = (if key x = k then f x else 0)
            + ((t.filter (fun y => key y == k)).map f).sum := by
      intro k
      by_cases h : key x = k
      · simp [List.filter_cons, h]
      · simp [List.filter_cons, h]
    calc (keys.map (fun k => ((List.filter (fun y => key y == k) (x :: t)).map f).sum)).sum
        = (keys.map (fun k => (if key x = k then f x else 0)
            + ((t.filter (fun y => key y == k)).map f).sum)).sum := by
          exact congrArg List.sum (List.map_congr_left (fun k _ => hsplit k))
      _ = (keys.map (fun k => if key x = k then f x else 0)).sum
            + (keys.map (fun k => ((t.filter (fun y => key y == k)).map f).sum)).sum := by
          rw [← List.sum_map_add]
      _ = f x + (t.map f).sum := by
          rw [sum_map_ite_single keys hnd (key x) hx (f x), ih keys hnd hct]
      _ = ((x :: t).map f).sum := by simp

/-- Filtering a keyed list with distinct keys down to one present key. -/
theorem filter_key_eq {α β : Type} [DecidableEq α] :
    ∀ (l : List (α × β)), (l.map Prod.fst).Nodup →
      ∀ m b, (m, b) ∈ l → l.filter (fun p => p.1 == m) = [(m, b)] := by
  intro l
  induction l with
  | nil => intro _ m b hb; exact absurd hb (List.not_mem_nil (m, b))
  | cons p t ih =>
    intro hnd m b hb
    have hnd2 : p.1 ∉ t.map Prod.fst ∧ (t.map Prod.fst).Nodup := by
      rw [List.map_cons, List.nodup_cons] at hnd
      exact hnd
    obtain ⟨hp, hnd'⟩ := hnd2
    rcases List.mem_cons.mp hb with h | h
    · subst h
      have hrest : t.filter (fun q => q.1 == m) = [] := by
        apply List.filter_eq_nil_iff.mpr
        intro q hq hbe
        have hq1 : q.1 ∈ t.map Prod.fst := List.mem_map_of_mem Prod.fst hq
        rw [beq_iff_eq.mp hbe] at hq1
        exact hp hq1
      simp [List.filter_cons, hrest]
    · have hm : m ∈ t.map Prod.fst := List.mem_map_of_mem Prod.fst h
      have hne : p.1 ≠ m := fun he => hp (he ▸ hm)
      have hbe : (p.1 == m) = false := beq_eq_false_iff_ne.mpr hne
      rw [List.filter_cons, hbe]
      simp only [Bool.false_eq_true, if_false]
      exact ih hnd' m b h

/-- The keys of a groupby are the sorted distinct key values. -/
theorem groupby_keys {α : Type} [DecidableEq α] (le : α → α → Bool)
    (key : Row → α) (df : List Row) :
    (groupbyAgeSums le key df).map Prod.fst = sortedKeys le (df.map key) := by
  unfold groupbyAgeSums
  rw [List.map_map]
  have hid : (Prod.fst ∘ fun k =>
      (k, ageSumsOf (df.filter (fun r => key r == k)))) = fun k => k := rfl
  rw [hid, List.map_id']

/-- Membership in a groupby determines the value at a key. -/
theorem groupby_mem {α : Type} [DecidableEq α] {le : α → α → Bool}
    {key : Row → α} {df : List Row} {m : α} {s : AgeSums}
    (h : (m, s) ∈ groupbyAgeSums le key df) :
    s = ageSumsOf (df.filter (fun r => key r == m)) ∧ m ∈ df.map key := by
  rcases List.mem_map.mp h with ⟨k, hk, he⟩
  have h1 : k = m := congrArg Prod.fst he
  have h2 : ageSumsOf (df.filter (fun r => key r == k)) = s := congrArg Prod.snd he
  subst h1
  exact ⟨h2.symm, mem_sortedKeys.mp hk⟩

/-- Filtering the melted age frame down to one month. -/
theorem meltAge_filter (G : List (String × AgeSums)) (hnd : (G.map Prod.fst).Nodup)
    (m : String) (s : AgeSums) (h : (m, s) ∈ G) :
    (meltAge G).filter (fun t => t.1 == m)
      = [(m, "age_0_5", s.a05), (m, "age_5_17", s.a517), (m, "age_18_greater", s.a18)] := by
  have hkey := filter_key_eq G hnd m s h
  unfold meltAge
  rw [List.filter_append, List.filter_append]
  rw [List.filter_map, List.filter_map, List.filter_map]
  have hc1 : ((fun t : String × String × Int => t.1 == m)
      ∘ (fun p : String × AgeSums => (p.1, "age_0_5", p.2.a05)))
      = fun p : String × AgeSums => p.1 == m := rfl
  have hc2 : ((fun t : String × String × Int => t.1 == m)
      ∘ (fun p : String × AgeSums => (p.1, "age_5_17", p.2.a517)))
      = fun p : String × AgeSums => p.1 == m := rfl
  have hc3 : ((fun t : String × String × Int => t.1 == m)
      ∘ (fun p : String × AgeSums => (p.1, "age_18_greater", p.2.a18)))
      = fun p : String × AgeSums => p.1 == m := rfl
  rw [hc1, hc2, hc3, hkey]
  rfl

/-- Filtering the melted percentage frame down to one month. -/
theorem meltPct_filter (G : List (String × (Option ℚ × Option ℚ × Option ℚ)))
    (hnd : (G.map Prod.fst).Nodup) (m : String)
    (q : Option ℚ × Option ℚ × Option ℚ) (h : (m, q) ∈ G) :
    (meltPct G).filter (fun t => t.1 == m)
      = [(m, "age_0_5", q.1), (m, "age_5_17", q.2.1), (m, "age_18_greater", q.2.2)] := by
  have hkey := filter_key_eq G hnd m q h
  unfold meltPct
  rw [List.filter_append, List.filter_append]
  rw [List.filter_map, List.filter_map, List.filter_map]
  have hc1 : ((fun t : String × String × Option ℚ => t.1 == m)
      ∘ (fun p : String × (Option ℚ × Option ℚ × Option ℚ) => (p.1, "age_0_5", p.2.1)))
      = fun p : String × (Option ℚ × Option ℚ × Option ℚ) => p.1 == m := rfl
  have hc2 : ((fun t : String × String × Option ℚ => t.1 == m)
      ∘ (fun p : String × (Option ℚ × Option ℚ × Option ℚ) => (p.1, "age_5_17", p.2.2.1)))
      = fun p : String × (Option ℚ × Option ℚ × Option ℚ) => p.1 == m := rfl
  have hc3 : ((fun t : String × String × Option ℚ => t.1 == m)
      ∘ (fun p : String × (Option ℚ × Option ℚ × Option ℚ) => (p.1, "age_18_greater", p.2.2.2)))
      = fun p : String × (Option ℚ × Option ℚ × Option ℚ) => p.1 == m := rfl
  rw [hc1, hc2, hc3, hkey]
  rfl

/-- The month groupby of a dataframe has distinct keys. -/
theorem groupby_fst_nodup {α : Type} [DecidableEq α] (le : α → α → Bool)
    (key : Row → α) (df : List Row) :
    ((groupbyAgeSums le key df).map Prod.fst).Nodup := by
  rw [groupby_keys]
  exact sortedKeys_nodup le (df.map key)

/-! ## The claims -/

/-- C1: the region filter returns the full dataset at National level,
exactly the rows whose state column equals the given state at State level,
and exactly the rows whose state and district columns both match at
District level. -/
theorem c1_region_filter (df : List Row) (s d : String) :
    df_region Level.National s d df = df
    ∧ (∀ r : Row, r ∈ df_region Level.State s d df ↔ r ∈ df ∧ r.state = s)
    ∧ (∀ r : Row, r ∈ df_region Level.District s d df
        ↔ r ∈ df ∧ r.state = s ∧ r.district = d) := by
  refine ⟨rfl, ?_, ?_⟩
  · intro r
    simp [df_region, List.mem_filter]
  · intro r
    simp [df_region, List.mem_filter, and_assoc]

/-- C6: for a (state, district) pair occurring in the dataset, the rows
selected at District level are a subset of those selected at the
corresponding State level, which are a subset of the full dataset selected
at National level. -/
theorem c6_region_subset_chain (df : List Row) (s d : String)
    (hocc : ∃ r ∈ df, r.state = s ∧ r.district = d) :
    df_region Level.District s d df ⊆ df_region Level.State s d df
    ∧ df_region Level.State s d df ⊆ df_region Level.National s d df := by
  constructor
  · intro x hx
    rcases List.mem_filter.mp hx with ⟨hxm, hb⟩
    rcases Bool.and_eq_true_iff.mp hb with ⟨hs, _⟩
    exact List.mem_filter.mpr ⟨hxm, hs⟩
  · intro x hx
    exact List.mem_of_mem_filter hx

/-- Witness for C6 at a concrete dataset and an occurring pair. -/
theorem c6_region_subset_chain_witness :
    df_region Level.District "Goa" "North Goa" [row1, row2, row3]
        ⊆ df_region Level.State "Goa" "North Goa" [row1, row2, row3]
    ∧ df_region Level.State "Goa" "North Goa" [row1, row2, row3]
        ⊆ df_region Level.National "Goa" "North Goa" [row1, row2, row3] :=
  c6_region_subset_chain [row1, row2, row3] "Goa" "North Goa" (by decide)

/-- C2: for every month of the filtered dataset, the monthly-by-age-group
view's values summed across the three age groups equal the monthly-totals
view's value for that month. -/
theorem c2_monthly_views_consistent (df : List Row) (m : String) (v : Int)
    (h : (m, v) ∈ monthly_total df) :
    (((monthly_age df).filter (fun t => t.1 == m)).map (fun t => t.2.2)).sum = v := by
  rcases List.mem_map.mp h with ⟨p, hp, he⟩
  obtain ⟨k, s⟩ := p
  have hk : k = m := congrArg Prod.fst he
  have hv : totalOf s = v := congrArg Prod.snd he
  subst hk
  have hnd := groupby_fst_nodup strLe (fun r => r.month) df
  have hmelt := meltAge_filter _ hnd k s hp
  unfold monthly_age monthly_age_raw
  rw [List.filter_map]
  have hcomp : ((fun t : String × String × Int => t.1 == k)
      ∘ (fun t : String × String × Int => (t.1, format_age_group t.2.1, t.2.2)))
      = fun t : String × String × Int => t.1 == k := rfl
  rw [hcomp, hmelt]
  simp only [totalOf] at hv
  simp
  linarith

/-- Witness for C2 on a concrete dataset and month. -/
theorem c2_monthly_views_consistent_witness :
    (((monthly_age [row1, row2, row3]).filter (fun t => t.1 == "2024-01")).map
      (fun t => t.2.2)).sum = 66 :=
  c2_monthly_views_consistent [row1, row2, row3] "2024-01" 66 (by decide)

/-- Both dashboards' percentage views, filtered down to one month of the
groupby: the three melted rows carry that month's pctTriple values. -/
theorem monthly_pct_filter (df : List Row) (m : String) (s : AgeSums)
    (h : (m, s) ∈ groupbyAgeSums strLe (fun r => r.month) df) :
    (App2.monthly_pct df).filter (fun t => t.1 == m)
      = [(m, "age_0_5", (pctTriple s).1), (m, "age_5_17", (pctTriple s).2.1),
         (m, "age_18_greater", (pctTriple s).2.2)]
    ∧ (monthly_pct df).filter (fun t => t.1 == m)
      = [(m, "Age 0-5", (pctTriple s).1), (m, "Age 5-17", (pctTriple s).2.1),
         (m, "Age 18+", (pctTriple s).2.2)] := by
  have hnd := groupby_fst_nodup strLe (fun r => r.month) df
  have hmem : (m, pctTriple s) ∈ (groupbyAgeSums strLe (fun r => r.month) df).map
      (fun p => (p.1, pctTriple p.2)) :=
    List.mem_map_of_mem (fun p => (p.1, pctTriple p.2)) h
  have hnd2 : (((groupbyAgeSums strLe (fun r => r.month) df).map
      (fun p => (p.1, pctTriple p.2))).map Prod.fst).Nodup := by
    rw [List.map_map]
    exact hnd
  have hflt := meltPct_filter _ hnd2 m (pctTriple s) hmem
  constructor
  · unfold App2.monthly_pct
    exact hflt
  · unfold monthly_pct monthly_pct_raw
    rw [List.filter_map]
    have hcomp : ((fun t : String × String × Option ℚ => t.1 == m)
        ∘ (fun t : String × String × Option ℚ => (t.1, format_age_group t.2.1, t.2.2)))
        = fun t : String × String × Option ℚ => t.1 == m := rfl
    rw [hcomp, hflt]
    rfl

/-- C3: for every month of the filtered dataset whose total across the
three age buckets is non-zero, the three age-group percentage shares are
defined and sum to exactly 100 over exact rational arithmetic, in both
dashboards' percentage views. -/
theorem c3_pct_sum_100 (df : List Row) (m : String) (s : AgeSums)
    (h : (m, s) ∈ groupbyAgeSums strLe (fun r => r.month) df)
    (hnz : totalOf s ≠ 0) :
    ∃ p1 p2 p3 : ℚ,
      (monthly_pct df).filter (fun t => t.1 == m)
        = [(m, "Age 0-5", some p1), (m, "Age 5-17", some p2), (m, "Age 18+", some p3)]
      ∧ (App2.monthly_pct df).filter (fun t => t.1 == m)
        = [(m, "age_0_5", some p1), (m, "age_5_17", some p2), (m, "age_18_greater", some p3)]
      ∧ p1 + p2 + p3 = 100 := by
  obtain ⟨h2, h1⟩ := monthly_pct_filter df m s h
  have hpt : pctTriple s
      = (some ((s.a05 : ℚ) / ((totalOf s : Int) : ℚ) * 100),
         some ((s.a517 : ℚ) / ((totalOf s : Int) : ℚ) * 100),
         some ((s.a18 : ℚ) / ((totalOf s : Int) : ℚ) * 100)) := by
    unfold pctTriple
    rw [if_neg hnz]
  refine ⟨(s.a05 : ℚ) / ((totalOf s : Int) : ℚ) * 100,
          (s.a517 : ℚ) / ((totalOf s : Int) : ℚ) * 100,
          (s.a18 : ℚ) / ((totalOf s : Int) : ℚ) * 100, ?_, ?_, ?_⟩
  · rw [h1, hpt]
  · rw [h2, hpt]
  · have ht : ((totalOf s : Int) : ℚ) ≠ 0 := Int.cast_ne_zero.mpr hnz
    have hsum : (s.a05 : ℚ) + (s.a517 : ℚ) + (s.a18 : ℚ) = ((totalOf s : Int) : ℚ) := by
      unfold totalOf
      push_cast
      ring
    calc (s.a05 : ℚ) / ((totalOf s : Int) : ℚ) * 100
          + (s.a517 : ℚ) / ((totalOf s : Int) : ℚ) * 100
          + (s.a18 : ℚ) / ((totalOf s : Int) : ℚ) * 100
        = ((s.a05 : ℚ) + (s.a517 : ℚ) + (s.a18 : ℚ)) / ((totalOf s : Int) : ℚ) * 100 := by
          ring
      _ = ((totalOf s : Int) : ℚ) / ((totalOf s : Int) : ℚ) * 100 := by rw [hsum]
      _ = 100 := by rw [div_self ht]; ring

/-- Witness for C3 on a concrete dataset and non-zero month. -/
theorem c3_pct_sum_100_witness :
    ∃ p1 p2 p3 : ℚ,
      (monthly_pct [row1, row2, row3]).filter (fun t => t.1 == "2024-01")
        = [("2024-01", "Age 0-5", some p1), ("2024-01", "Age 5-17", some p2),
           ("2024-01", "Age 18+", some p3)]
      ∧ (App2.monthly_pct [row1, row2, row3]).filter (fun t => t.1 == "2024-01")
        = [("2024-01", "age_0_5", some p1), ("2024-01", "age_5_17", some p2),
           ("2024-01", "age_18_greater", some p3)]
      ∧ p1 + p2 + p3 = 100 :=
  c3_pct_sum_100 [row1, row2, row3] "2024-01" ⟨11, 22, 33⟩ (by decide) (by decide)

/-- C4: a month whose total across the buckets is zero is still produced
by the percentage computation (the melt keeps it), with all three shares
undefined (pandas NaN/inf, modelled none) rather than any failure: the
embedded computation is total, mirroring pandas float division which
raises no exception on a zero divisor. -/
theorem c4_pct_zero_total (df : List Row) (m : String) (s : AgeSums)
    (h : (m, s) ∈ groupbyAgeSums strLe (fun r => r.month) df)
    (hz : totalOf s = 0) :
    (monthly_pct df).filter (fun t => t.1 == m)
      = [(m, "Age 0-5", none), (m, "Age 5-17", none), (m, "Age 18+", none)]
    ∧ (App2.monthly_pct df).filter (fun t => t.1 == m)
      = [(m, "age_0_5", none), (m, "age_5_17", none), (m, "age_18_greater", none)] := by
  obtain ⟨h2, h1⟩ := monthly_pct_filter df m s h
  have hpt : pctTriple s = (none, none, none) := by
    unfold pctTriple
    rw [if_pos hz]
  rw [hpt] at h1 h2
  exact ⟨h1, h2⟩

/-- Witness for C4 on a concrete dataset with a zero-total month. -/
theorem c4_pct_zero_total_witness :
    (monthly_pct [row1, rowZ]).filter (fun t => t.1 == "2024-03")
      = [("2024-03", "Age 0-5", none), ("2024-03", "Age 5-17", none),
         ("2024-03", "Age 18+", none)]
    ∧ (App2.monthly_pct [row1, rowZ]).filter (fun t => t.1 == "2024-03")
      = [("2024-03", "age_0_5", none), ("2024-03", "age_5_17", none),
         ("2024-03", "age_18_greater", none)] :=
  c4_pct_zero_total [row1, rowZ] "2024-03" ⟨0, 0, 0⟩ (by decide) (by decide)

/-- The bucket total of grouped column sums is the sum of row totals. -/
theorem totalOf_ageSumsOf (rows : List Row) :
    totalOf (ageSumsOf rows) = (rows.map rowTotal).sum := by
  unfold totalOf ageSumsOf sumCol rowTotal
  exact sum_three_maps rows _ _ _

/-- Summing a grouped-and-totalled view over all its groups recovers the
sum of every age-bucket value of the dataframe. -/
theorem grouped_total_sum {α : Type} [DecidableEq α] (le : α → α → Bool)
    (key : Row → α) (df : List Row) :
    (((groupbyAgeSums le key df).map (fun p => (p.1, totalOf p.2))).map Prod.snd).sum
      = sumAll df := by
  unfold groupbyAgeSums sumAll
  rw [List.map_map, List.map_map]
  have hstep : ∀ k ∈ sortedKeys le (df.map key),
      ((Prod.snd ∘ (fun p : α × AgeSums => (p.1, totalOf p.2)))
        ∘ (fun k => (k, ageSumsOf (df.filter (fun r => key r == k))))) k
      = ((df.filter (fun r => key r == k)).map rowTotal).sum := by
    intro k _
    exact totalOf_ageSumsOf _
  rw [List.map_congr_left hstep]
  exact sum_fiber key rowTotal df (sortedKeys le (df.map key))
    (sortedKeys_nodup le (df.map key))
    (fun r hr => mem_sortedKeys.mpr (List.mem_map_of_mem key hr))

/-- A running sum over non-negative increments is non-decreasing and stays
at or above the accumulator. -/
theorem cumsumAux_chain :
    ∀ (l : List (Nat × Int)) (acc : Int), (∀ p ∈ l, 0 ≤ p.2) →
      List.Chain' (fun a b => a ≤ b) ((cumsumAux acc l).map Prod.snd)
      ∧ ∀ x ∈ (cumsumAux acc l).map Prod.snd, acc ≤ x := by
  intro l
  induction l with
  | nil =>
    intro acc _
    simp [cumsumAux]
  | cons p rest ih =>
    obtain ⟨d, v⟩ := p
    intro acc hpos
    have hv : 0 ≤ v := hpos (d, v) (List.mem_cons_self (d, v) rest)
    have hrest := ih (acc + v) (fun q hq => hpos q (List.mem_cons_of_mem (d, v) hq))
    have hshape : (cumsumAux acc ((d, v) :: rest)).map Prod.snd
        = (acc + v) :: (cumsumAux (acc + v) rest).map Prod.snd := rfl
    rw [hshape]
    constructor
    · apply List.chain'_cons'.mpr
      constructor
      · intro y hy
        exact hrest.2 y (List.mem_of_mem_head? hy)
      · exact hrest.1
    · intro x hx
      rcases List.mem_cons.mp hx with h | h
      · subst h
        linarith
      · have := hrest.2 x h
        linarith

/-- The last entry of a running sum is the accumulator plus all
increments. -/
theorem cumsumAux_last :
    ∀ (l : List (Nat × Int)) (acc : Int), l ≠ [] →
      ((cumsumAux acc l).map Prod.snd).getLast?
        = some (acc + (l.map Prod.snd).sum) := by
  intro l
  induction l with
  | nil => intro acc h; exact absurd rfl h
  | cons p rest ih =>
    obtain ⟨d, v⟩ := p
    intro acc _
    match rest, ih with
    | [], _ =>
      simp [cumsumAux]
    | q :: rest2, ih =>
      have hrec := ih (acc + v) (List.cons_ne_nil q rest2)
      have hshape : (cumsumAux acc ((d, v) :: q :: rest2)).map Prod.snd
          = (acc + v) :: (q.1, acc + v + q.2).2
              :: (cumsumAux (acc + v + q.2) rest2).map Prod.snd := by
        rfl
      have hshape2 : (cumsumAux (acc + v) (q :: rest2)).map Prod.snd
          = (q.1, acc + v + q.2).2 :: (cumsumAux (acc + v + q.2) rest2).map Prod.snd := rfl
      rw [hshape, List.getLast?_cons_cons, ← hshape2, hrec]
      congr 1
      simp only [List.map_cons, List.sum_cons]
      ring

/-- The final value of the cumulative series is the total over the
dataset (no sign condition needed). -/
theorem daily_total_last (df : List Row) (hdf : df ≠ []) :
    ((daily_total df).map Prod.snd).getLast? = some (sumAll df) := by
  have hKne : (groupbyAgeSums natLe (fun r => r.date) df).map
      (fun p => (p.1, totalOf p.2)) ≠ [] := by
    match df, hdf with
    | r :: rest, _ =>
      have hk : r.date ∈ sortedKeys natLe ((r :: rest).map (fun x => x.date)) :=
        mem_sortedKeys.mpr (List.mem_map_of_mem _ (List.mem_cons_self r rest))
      have hne : sortedKeys natLe ((r :: rest).map (fun x => x.date)) ≠ [] :=
        List.ne_nil_of_mem hk
      unfold groupbyAgeSums
      simpa [List.map_eq_nil_iff] using hne
  have hlast := cumsumAux_last _ 0 hKne
  unfold daily_total
  rw [hlast, grouped_total_sum natLe (fun r => r.date) df, zero_add]

/-- C5: on a filtered dataset with non-negative bucket values, the
cumulative time series is non-decreasing, and when the dataset is not
empty its final value equals the sum of every age-bucket value in the
dataset (the sum of all per-date totals). -/
theorem c5_cumulative_series (df : List Row)
    (hpos : ∀ r ∈ df, 0 ≤ r.age_0_5 ∧ 0 ≤ r.age_5_17 ∧ 0 ≤ r.age_18_greater) :
    List.Chain' (fun a b => a ≤ b) ((daily_total df).map Prod.snd)
    ∧ (df ≠ [] → ((daily_total df).map Prod.snd).getLast? = some (sumAll df)) := by
  have hP : ∀ p ∈ (groupbyAgeSums natLe (fun r => r.date) df).map
      (fun p => (p.1, totalOf p.2)), 0 ≤ p.2 := by
    intro p hp
    rcases List.mem_map.mp hp with ⟨g, hg, he⟩
    rcases List.mem_map.mp hg with ⟨k, _, hek⟩
    have h2 : p.2 = totalOf g.2 := (congrArg Prod.snd he).symm
    have hgk : g.2 = ageSumsOf (df.filter (fun r => r.date == k)) :=
      (congrArg Prod.snd hek).symm
    rw [h2, hgk, totalOf_ageSumsOf]
    apply List.sum_nonneg
    intro x hx
    rcases List.mem_map.mp hx with ⟨r, hr, hex⟩
    obtain ⟨h1, h2, h3⟩ := hpos r (List.mem_of_mem_filter hr)
    rw [← hex]
    unfold rowTotal
    linarith
  constructor
  · exact (cumsumAux_chain _ 0 hP).1
  · exact daily_total_last df

/-- Witness for C5 on a concrete non-negative dataset. -/
theorem c5_cumulative_series_witness :
    List.Chain' (fun a b => a ≤ b) ((daily_total [row1, row2, row3]).map Prod.snd)
    ∧ ((daily_total [row1, row2, row3]).map Prod.snd).getLast?
        = some (sumAll [row1, row2, row3]) :=
  ⟨(c5_cumulative_series [row1, row2, row3] (by decide)).1,
   (c5_cumulative_series [row1, row2, row3] (by decide)).2 (by decide)⟩

/-- Summing the values of a melted age frame equals summing the group
totals. -/
theorem meltAge_val_sum {α : Type} (G : List (α × AgeSums)) :
    ((meltAge G).map (fun t => t.2.2)).sum = (G.map (fun p => totalOf p.2)).sum := by
  unfold meltAge
  rw [List.map_append, List.map_append, List.sum_append, List.sum_append]
  rw [List.map_map, List.map_map, List.map_map]
  have h1 : ((fun t : α × String × Int => t.2.2)
      ∘ (fun p : α × AgeSums => (p.1, "age_0_5", p.2.a05)))
      = fun p : α × AgeSums => p.2.a05 := rfl
  have h2 : ((fun t : α × String × Int => t.2.2)
      ∘ (fun p : α × AgeSums => (p.1, "age_5_17", p.2.a517)))
      = fun p : α × AgeSums => p.2.a517 := rfl
  have h3 : ((fun t : α × String × Int => t.2.2)
      ∘ (fun p : α × AgeSums => (p.1, "age_18_greater", p.2.a18)))
      = fun p : α × AgeSums => p.2.a18 := rfl
  rw [h1, h2, h3, sum_three_maps]
  rfl

/-- The grouped view's value column is the group totals. -/
theorem grouped_snd_map {α : Type} (G : List (α × AgeSums)) :
    ((G.map (fun p => (p.1, totalOf p.2))).map Prod.snd)
      = G.map (fun p => totalOf p.2) := by
  rw [List.map_map]
  rfl

/-- C9: app_enrolment.py's headline total is the sum of the three
age-bucket columns over the filtered subset divided by two with
truncation, while every chart aggregate — monthly totals, monthly by age
group, any sub-territory totals, and the cumulative series — uses the
undivided sums; app2.py computes the same undivided aggregates and has no
divide-by-two anywhere (it has no headline total at all). -/
theorem c9_headline_halved_charts_undivided (df : List Row) :
    total_enrol_sum df = Int.tdiv (sumAll df) 2
    ∧ ((monthly_total df).map Prod.snd).sum = sumAll df
    ∧ ((monthly_age df).map (fun t => t.2.2)).sum = sumAll df
    ∧ (∀ sub : Row → String, ((sub_total sub df).map Prod.snd).sum = sumAll df)
    ∧ (df ≠ [] → ((daily_total df).map Prod.snd).getLast? = some (sumAll df))
    ∧ App2.monthly_total df = monthly_total df
    ∧ ((App2.monthly_total df).map Prod.snd).sum = sumAll df
    ∧ (∀ sub : Row → String, App2.sub_total sub df = sub_total sub df)
    ∧ App2.daily_total df = daily_total df := by
  have hmt : ((monthly_total df).map Prod.snd).sum = sumAll df :=
    grouped_total_sum strLe (fun r => r.month) df
  have hsub : ∀ sub : Row → String, ((sub_total sub df).map Prod.snd).sum = sumAll df := by
    intro sub
    have hperm : (sub_total sub df).Perm
        ((groupbyAgeSums strLe sub df).map (fun p => (p.1, totalOf p.2))) :=
      sortLe_perm _ _
    have := (hperm.map Prod.snd).sum_eq
    rw [this]
    exact grouped_total_sum strLe sub df
  refine ⟨?_, hmt, ?_, hsub, daily_total_last df, rfl, hmt, fun _ => rfl, rfl⟩
  · have h := sum_three_maps df (fun r => r.age_0_5) (fun r => r.age_5_17)
      (fun r => r.age_18_greater)
    unfold total_enrol_sum sumCol sumAll
    rw [h]
    rfl
  · have hlab : ((monthly_age df).map (fun t => t.2.2)).sum
        = ((monthly_age_raw df).map (fun t => t.2.2)).sum := by
      unfold monthly_age
      rw [List.map_map]
      rfl
    rw [hlab]
    unfold monthly_age_raw
    rw [meltAge_val_sum, ← grouped_snd_map]
    exact grouped_total_sum strLe (fun r => r.month) df

/-! ## Lemmas about the loader -/

/-- Reading a list of readable files yields exactly those files. -/
theorem readAll_somes : ∀ fs : List CsvFile, readAll (fs.map some) = Except.ok fs := by
  intro fs
  induction fs with
  | nil => rfl
  | cons f t ih => simp [readAll, ih, Except.map]

/-- Reading a list containing an unreadable file raises. -/
theorem readAll_err : ∀ files : List (Option CsvFile), none ∈ files →
    ∃ e, readAll files = Except.error e := by
  intro files
  induction files with
  | nil => intro h; exact absurd h (List.not_mem_nil none)
  | cons f t ih =>
    intro h
    match f with
    | none => exact ⟨LoadError.unreadableFile, rfl⟩
    | some g =>
      have hmem : none ∈ t := by
        rcases List.mem_cons.mp h with h1 | h1
        · exact absurd h1 (by simp)
        · exact h1
      obtain ⟨e, he⟩ := ih hmem
      exact ⟨e, by simp [readAll, he, Except.map]⟩

/-- When every non-null date cell parses, to_datetime succeeds and keeps
one parsed value per row. -/
theorem parseDates_ok (parse : String → Option DateYMD) (di : Nat) :
    ∀ rows : List (List (Option String)), rows.all (rowOk parse di) = true →
      ∃ ds, parseDates parse di rows = Except.ok ds ∧ ds.length = rows.length := by
  intro rows
  induction rows with
  | nil => intro _; exact ⟨[], rfl, rfl⟩
  | cons row rest ih =>
    intro hall
    rw [List.all_cons, Bool.and_eq_true] at hall
    obtain ⟨hrow, hrest⟩ := hall
    obtain ⟨ds, hds, hlen⟩ := ih hrest
    unfold rowOk at hrow
    unfold parseDates
    cases hcell : cellAt di row with
    | none =>
      simp only [hcell]
      rw [hds]
      exact ⟨none :: ds, rfl, by simp [hlen]⟩
    | some s =>
      simp only [hcell] at hrow ⊢
      cases hp : parse s with
      | none => rw [hp] at hrow; exact absurd hrow (by simp)
      | some d =>
        simp only [hp]
        rw [hds]
        exact ⟨some d :: ds, rfl, by simp [hlen]⟩

/-- When some non-null date cell fails to parse, to_datetime raises. -/
theorem parseDates_err (parse : String → Option DateYMD) (di : Nat) :
    ∀ rows : List (List (Option String)), rows.all (rowOk parse di) = false →
      ∃ e, parseDates parse di rows = Except.error e := by
  intro rows
  induction rows with
  | nil => intro h; exact absurd h (by simp)
  | cons row rest ih =>
    intro hall
    rw [List.all_cons] at hall
    unfold parseDates
    cases hcell : cellAt di row with
    | none =>
      have hrok : rowOk parse di row = true := by
        unfold rowOk
        rw [hcell]
      rw [hrok, Bool.true_and] at hall
      obtain ⟨e, he⟩ := ih hall
      simp only [hcell]
      rw [he]
      exact ⟨e, rfl⟩
    | some s =>
      cases hp : parse s with
      | none =>
        simp only [hcell, hp]
        exact ⟨LoadError.dateParseFailure, rfl⟩
      | some d =>
        have hrok : rowOk parse di row = true := by
          simp [rowOk, hcell, hp]
        rw [hrok, Bool.true_and] at hall
        obtain ⟨e, he⟩ := ih hall
        simp only [hcell, hp]
        rw [he]
        exact ⟨e, rfl⟩

/-- Concatenation keeps every row of every input file. -/
theorem concat_len (fs : List CsvFile) :
    (concatFiles fs).2.length = (fs.map (fun f => f.rows.length)).sum := by
  unfold concatFiles
  rw [List.length_flatMap]
  congr 1
  apply List.map_congr_left
  intro f _
  simp

/-- C7 counterexample: two input files with mismatched column schemas are
loaded without any error — load_data returns a dataset, where the claim
says it must fail with a SchemaError and never return one.  pd.concat
aligns the union of the columns and fills the holes with NaN. -/
theorem c7_counterexample_schema_mismatch_loads :
    fileA.header ≠ fileB.header
    ∧ (load_data demoParse [some fileA, some fileB]).isOk = true := by decide

/-- C7 as amended: the loader fails (propagating the library exception;
the code defines no DataLoadError or SchemaError) whenever a file is
unreadable, the file list is empty, or — given readable files — the date
column is missing or some non-null date value fails to parse; with
readable files and parseable dates it succeeds and keeps every input row,
regardless of whether the files' column schemas agree. -/
theorem c7_loader_errors (parse : String → Option DateYMD)
    (files : List (Option CsvFile)) :
    (none ∈ files → (load_data parse files).isOk = false)
    ∧ (files = [] → (load_data parse files).isOk = false)
    ∧ (∀ fs : List CsvFile, files = fs.map some → fs ≠ [] →
        (dateCellsOk parse fs = true →
          ∃ out : LoadedFrame, load_data parse files = Except.ok out
            ∧ out.cells.length = (fs.map (fun f => f.rows.length)).sum)
        ∧ (dateCellsOk parse fs = false → (load_data parse files).isOk = false)) := by
  refine ⟨?_, ?_, ?_⟩
  · intro h
    obtain ⟨e, he⟩ := readAll_err files h
    unfold load_data
    rw [he]
    rfl
  · intro h
    subst h
    rfl
  · intro fs hfe hne
    subst hfe
    have hra := readAll_somes fs
    have hemp : fs.isEmpty = false := by
      cases fs with
      | nil => exact absurd rfl hne
      | cons a t => rfl
    constructor
    · intro hok
      unfold dateCellsOk at hok
      unfold load_data
      rw [hra]
      simp only [hemp, Bool.false_eq_true, if_false]
      cases hidx : (concatFiles fs).1.indexOf? "date" with
      | none =>
        rw [hidx] at hok
        exact absurd hok (by simp)
      | some di =>
        rw [hidx] at hok
        simp only [hidx]
        obtain ⟨ds, hds, hlen⟩ := parseDates_ok parse di _ hok
        rw [hds]
        exact ⟨_, rfl, concat_len fs⟩
    · intro hbad
      unfold dateCellsOk at hbad
      unfold load_data
      rw [hra]
      simp only [hemp, Bool.false_eq_true, if_false]
      cases hidx : (concatFiles fs).1.indexOf? "date" with
      | none =>
        simp only [hidx]
        rfl
      | some di =>
        rw [hidx] at hbad
        obtain ⟨e, he⟩ := parseDates_err parse di _ hbad
        simp only [hidx, he]
        rfl

/-! ## Lemmas about format_indian -/

theorem lstrip_data (c : Char) (s : String) :
    (lstrip c s).data = s.data.dropWhile (fun x => x == c) := rfl

theorem fiLoop_zero : ∀ (fuel : Nat) (r : String), fiLoop fuel 0 r = r := by
  intro fuel r
  cases fuel with
  | zero => rfl
  | succ f => simp [fiLoop]

theorem padPairsF_small (fuel m : Nat) (h : m < 100) :
    padPairsF fuel m = zfill 2 (toString m) := by
  cases fuel with
  | zero => rfl
  | succ f => simp [padPairsF, h]

theorem groupPairsF_small (fuel m : Nat) (h : m < 100) :
    groupPairsF fuel m = toString m := by
  cases fuel with
  | zero => rfl
  | succ f => simp [groupPairsF, h]

theorem padPairsF_fuel : ∀ m fuel : Nat, m ≤ fuel → padPairsF fuel m = padPairs m := by
  intro m
  induction m using Nat.strong_induction_on with
  | _ m ih =>
    intro fuel hf
    by_cases hs : m < 100
    · rw [padPairsF_small fuel m hs]
      unfold padPairs
      rw [padPairsF_small m m hs]
    · have h100 : 100 ≤ m := Nat.le_of_not_lt hs
      obtain ⟨f, rfl⟩ : ∃ f, fuel = f + 1 := ⟨fuel - 1, by omega⟩
      obtain ⟨g, rfl⟩ : ∃ g, m = g + 1 := ⟨m - 1, by omega⟩
      have hdl : (g + 1) / 100 < g + 1 := by omega
      unfold padPairs
      simp only [padPairsF, if_neg hs]
      rw [ih ((g + 1) / 100) hdl f (by omega), ih ((g + 1) / 100) hdl g (by omega)]

theorem groupPairsF_fuel : ∀ m fuel : Nat, m ≤ fuel → groupPairsF fuel m = groupPairs m := by
  intro m
  induction m using Nat.strong_induction_on with
  | _ m ih =>
    intro fuel hf
    by_cases hs : m < 100
    · rw [groupPairsF_small fuel m hs]
      unfold groupPairs
      rw [groupPairsF_small m m hs]
    · have h100 : 100 ≤ m := Nat.le_of_not_lt hs
      obtain ⟨f, rfl⟩ : ∃ f, fuel = f + 1 := ⟨fuel - 1, by omega⟩
      obtain ⟨g, rfl⟩ : ∃ g, m = g + 1 := ⟨m - 1, by omega⟩
      have hdl : (g + 1) / 100 < g + 1 := by omega
      unfold groupPairs
      simp only [groupPairsF, if_neg hs]
      rw [ih ((g + 1) / 100) hdl f (by omega), ih ((g + 1) / 100) hdl g (by omega)]

theorem padPairs_step (m : Nat) (h : 100 ≤ m) :
    padPairs m = padPairs (m / 100) ++ "," ++ zfill 2 (toString (m % 100)) := by
  obtain ⟨g, rfl⟩ : ∃ g, m = g + 1 := ⟨m - 1, by omega⟩
  unfold padPairs
  simp only [padPairsF, if_neg (by omega : ¬ g + 1 < 100)]
  rw [padPairsF_fuel ((g + 1) / 100) g (by omega)]
  rfl

theorem groupPairs_step (m : Nat) (h : 100 ≤ m) :
    groupPairs m = groupPairs (m / 100) ++ "," ++ zfill 2 (toString (m % 100)) := by
  obtain ⟨g, rfl⟩ : ∃ g, m = g + 1 := ⟨m - 1, by omega⟩
  unfold groupPairs
  simp only [groupPairsF, if_neg (by omega : ¬ g + 1 < 100)]
  rw [groupPairsF_fuel ((g + 1) / 100) g (by omega)]
  rfl

/-- The loop builds exactly the zero-padded pairs of its argument,
prepended to the accumulated string. -/
theorem fiLoop_pad : ∀ m : Nat, 1 ≤ m → ∀ fuel : Nat, m ≤ fuel → ∀ r : String,
    fiLoop fuel m r = padPairs m ++ ("," ++ r) := by
  intro m
  induction m using Nat.strong_induction_on with
  | _ m ih =>
    intro hm fuel hf r
    obtain ⟨f, rfl⟩ : ∃ f, fuel = f + 1 := ⟨fuel - 1, by omega⟩
    by_cases hs : m < 100
    · have hd0 : m / 100 = 0 := Nat.div_eq_of_lt hs
      have hmod : m % 100 = m := Nat.mod_eq_of_lt hs
      simp only [fiLoop, if_neg (by omega : ¬ m = 0)]
      rw [hd0, fiLoop_zero, hmod]
      unfold padPairs
      rw [padPairsF_small m m hs]
      apply String.ext
      simp [String.data_append]
    · have h100 : 100 ≤ m := Nat.le_of_not_lt hs
      simp only [fiLoop, if_neg (by omega : ¬ m = 0)]
      have hdl : m / 100 < m := by omega
      rw [ih (m / 100) hdl (by omega) f (by omega)]
      rw [padPairs_step m h100]
      apply String.ext
      simp [String.data_append]

/-- The decidable core: for a single pair, stripping the pad zero of the
zfilled form gives the unpadded form, which starts with a character that
is neither a zero nor a comma. -/
theorem small_strip : ∀ m : Nat, m < 100 → 1 ≤ m →
    ((zfill 2 (toString m)).data.dropWhile (fun c => c == '0') = (toString m).data
     ∧ (toString m).data ≠ []
     ∧ (toString m).data.headD ' ' ≠ '0'
     ∧ (toString m).data.headD ' ' ≠ ',') := by decide

theorem dropWhile_append_ne_nil {p : Char → Bool} :
    ∀ l₁ l₂ : List Char, l₁.dropWhile p ≠ [] →
      (l₁ ++ l₂).dropWhile p = l₁.dropWhile p ++ l₂ := by
  intro l₁
  induction l₁ with
  | nil => intro l₂ h; exact absurd rfl h
  | cons a t ih =>
    intro l₂ h
    cases hpa : p a with
    | true =>
      rw [List.dropWhile_cons, hpa] at h
      simp only [if_true] at h
      rw [List.cons_append, List.dropWhile_cons, hpa, List.dropWhile_cons, hpa]
      simp only [if_true]
      exact ih l₂ h
    | false =>
      rw [List.cons_append, List.dropWhile_cons, hpa, List.dropWhile_cons, hpa]
      simp

theorem headD_append_ne_nil {l : List Char} (h : l ≠ []) (l' : List Char) (x : Char) :
    (l ++ l').headD x = l.headD x := by
  cases l with
  | nil => exact absurd rfl h
  | cons a t => rfl

theorem dropWhile_comma_head {l : List Char} (hne : l ≠ []) (h : l.headD ' ' ≠ ',') :
    l.dropWhile (fun c => c == ',') = l := by
  cases l with
  | nil => exact absurd rfl hne
  | cons a t =>
    have hb : (a == ',') = false := by
      rw [List.headD_cons] at h
      exact beq_eq_false_iff_ne.mpr h
    rw [List.dropWhile_cons, hb]
    simp

/-- Stripping the leading pad zero of padPairs yields groupPairs, whose
first character is a non-zero digit. -/
theorem pad_strip : ∀ m : Nat, 1 ≤ m →
    (padPairs m).data.dropWhile (fun c => c == '0') = (groupPairs m).data
    ∧ (groupPairs m).data ≠ []
    ∧ (groupPairs m).data.headD ' ' ≠ '0'
    ∧ (groupPairs m).data.headD ' ' ≠ ',' := by
  intro m
  induction m using Nat.strong_induction_on with
  | _ m ih =>
    intro hm
    by_cases hs : m < 100
    · have h1 : padPairs m = zfill 2 (toString m) := padPairsF_small m m hs
      have h2 : groupPairs m = toString m := groupPairsF_small m m hs
      rw [h1, h2]
      exact small_strip m hs hm
    · have h100 : 100 ≤ m := Nat.le_of_not_lt hs
      have hdl : m / 100 < m := by omega
      obtain ⟨hdw, hne, h0, hc⟩ := ih (m / 100) hdl (by omega)
      have hpd : (padPairs m).data
          = (padPairs (m / 100)).data ++ (',' :: (zfill 2 (toString (m % 100))).data) := by
        rw [padPairs_step m h100]
        simp [String.data_append]
      have hgd : (groupPairs m).data
          = (groupPairs (m / 100)).data ++ (',' :: (zfill 2 (toString (m % 100))).data) := by
        rw [groupPairs_step m h100]
        simp [String.data_append]
      refine ⟨?_, ?_, ?_, ?_⟩
      · rw [hpd, dropWhile_append_ne_nil _ _ (by rw [hdw]; exact hne), hdw, hgd]
      · rw [hgd]
        intro hemp
        rcases List.append_eq_nil.mp hemp with ⟨h1, _⟩
        exact hne h1
      · rw [hgd, headD_append_ne_nil hne]
        exact h0
      · rw [hgd, headD_append_ne_nil hne]
        exact hc

/-- C8: for every non-negative integer, format_indian produces the Indian
grouping — the last three digits together, all preceding digits in pairs,
comma separated, and no separators below 1000 — with the boundary and
example values of the spec. -/
theorem c8_format_indian_grouping :
    (∀ n : Int, 0 ≤ n → format_indian n = indianGroupingSpec n)
    ∧ format_indian 999 = "999"
    ∧ format_indian 1000 = "1,000"
    ∧ format_indian 12345678 = "1,23,45,678"
    ∧ format_indian 0 = "0" := by
  refine ⟨?_, by decide, by decide, by decide, by decide⟩
  intro n hn
  by_cases hlt : n < 1000
  · unfold format_indian indianGroupingSpec
    rw [if_pos hlt, if_pos hlt]
  · unfold format_indian indianGroupingSpec
    rw [if_neg hlt, if_neg hlt]
    have hM : 1000 ≤ n.toNat := by omega
    have hm1 : 1 ≤ n.toNat / 1000 := by omega
    show lstrip ',' (lstrip '0'
        (fiLoop n.toNat (n.toNat / 1000) (takeLast 3 (toString n))))
      = groupPairs (n.toNat / 1000) ++ ("," ++ takeLast 3 (toString n))
    rw [fiLoop_pad (n.toNat / 1000) hm1 n.toNat (Nat.div_le_self _ _)
      (takeLast 3 (toString n))]
    obtain ⟨hdw, hne, h0, hc⟩ := pad_strip (n.toNat / 1000) hm1
    apply String.ext
    rw [lstrip_data, lstrip_data]
    have hpd : (padPairs (n.toNat / 1000) ++ ("," ++ takeLast 3 (toString n))).data
        = (padPairs (n.toNat / 1000)).data ++ (',' :: (takeLast 3 (toString n)).data) := by
      simp [String.data_append]
    have hgd : (groupPairs (n.toNat / 1000) ++ ("," ++ takeLast 3 (toString n))).data
        = (groupPairs (n.toNat / 1000)).data ++ (',' :: (takeLast 3 (toString n)).data) := by
      simp [String.data_append]
    rw [hpd, dropWhile_append_ne_nil _ _ (by rw [hdw]; exact hne), hdw]
    rw [dropWhile_comma_head ?hne2 ?hhead, hgd]
    case hne2 =>
      intro hemp
      rcases List.append_eq_nil.mp hemp with ⟨h1, _⟩
      exact hne h1
    case hhead =>
      rw [headD_append_ne_nil hne]
      exact hc

/-- C10: a negative integer falls into the below-1000 branch, so it is
rendered as the plain decimal string with no grouping. -/
theorem c10_negative_plain (n : Int) (h : n < 0) : format_indian n = toString n := by
  unfold format_indian
  rw [if_pos (by omega : n < 1000)]

/-- Witness for C10 at a concrete negative input. -/
theorem c10_negative_plain_witness : format_indian (-42) = "-42" :=
  (c10_negative_plain (-42) (by decide)).trans (by decide)

end Aadhar
